import Mathlib

/-!
Verification development for the `gh-worktree` repository
(`internal/cli/clean.go` and `internal/worktree/worktree.go`).

The Go code is shallowly embedded: strings are Lean `String`s (lists of
characters), Go `int`/`time.Time` become `Int` (64-bit bounds are made
explicit where the code can observe them), subprocess and network calls
become explicit oracle parameters, and fallible steps return `Option` /
`Except`.  Every definition mirrors the corresponding Go function; the
original line is cited in each doc comment.
-/

/-! ## Character and string primitives (Go standard library behaviour) -/

/-- The white-space set of Go `unicode.IsSpace` (used by `strings.TrimSpace`
and `strings.Fields`): ASCII spaces plus the Unicode `White_Space` points. -/
def isGoSpace (c : Char) : Bool :=
  c == ' ' || c == '\t' || c == '\n' || (c.toNat ≥ 0xB && c.toNat ≤ 0xD) ||
  c.toNat == 0x85 || c.toNat == 0xA0 || c.toNat == 0x1680 ||
  (c.toNat ≥ 0x2000 && c.toNat ≤ 0x200A) ||
  c.toNat == 0x2028 || c.toNat == 0x2029 || c.toNat == 0x202F ||
  c.toNat == 0x205F || c.toNat == 0x3000

/-- Character test at index `i`; false past the end. -/
def testAt (p : Char → Bool) (l : List Char) (i : Nat) : Bool :=
  match l.get? i with
  | some c => p c
  | none => false

/-- Go `strings.HasPrefix`. -/
def goHasPre (pre s : String) : Bool := List.isPrefixOf pre.data s.data

/-- Drop the first `n` characters (the Go slice `s[n:]` for ASCII prefixes,
as used by `strings.TrimPrefix` after a successful `HasPrefix`). -/
def goDropStr (s : String) (n : Nat) : String := ⟨s.data.drop n⟩

/-- Go `strings.Contains`. -/
def goContains (s sub : String) : Bool := decide (sub.data <:+: s.data)

/-- Split a character list at every occurrence of `c`
(Go `strings.Split` with a one-character separator). -/
def splitOnChar (c : Char) : List Char → List (List Char)
  | [] => [[]]
  | x :: xs =>
    let r := splitOnChar c xs
    if x == c then [] :: r
    else
      match r with
      | [] => [[x]]
      | h :: t => (x :: h) :: t

/-- Go `strings.Split(s, "\n")`. -/
def goSplitLines (s : String) : List String :=
  (splitOnChar '\n' s.data).map (fun l => ⟨l⟩)

/-- Go `strings.TrimSpace` on a character list. -/
def goTrimSpaceL (l : List Char) : List Char :=
  ((l.dropWhile isGoSpace).reverse.dropWhile isGoSpace).reverse

/-- Go `strings.TrimSpace`. -/
def goTrimSpace (s : String) : String := ⟨goTrimSpaceL s.data⟩

/-- Accumulator pass of Go `strings.Fields`: split around runs of
white space, discarding empty fields. -/
def fieldsAux : List Char → List Char → List String
  | [], acc => if acc.isEmpty then [] else [⟨acc.reverse⟩]
  | c :: cs, acc =>
    if isGoSpace c then
      if acc.isEmpty then fieldsAux cs []
      else ⟨acc.reverse⟩ :: fieldsAux cs []
    else fieldsAux cs (c :: acc)

/-- Go `strings.Fields`. -/
def goFields (s : String) : List String := fieldsAux s.data []

/-! ## `strconv.Atoi` -/

/-- Decimal value of a digit list (most significant first), exactly the
accumulation `n = n*10 + digit` performed by `strconv.Atoi`. -/
def digitsVal (l : List Char) : Nat :=
  l.foldl (fun a c => 10 * a + (c.toNat - 48)) 0

/-- Largest Go `int` (64-bit). -/
def maxInt64 : Int := 9223372036854775807

/-- Smallest Go `int` (64-bit). -/
def minInt64 : Int := -9223372036854775808

/-- Go `strconv.Atoi` on a character list: optional sign, one or more
decimal digits, in-range for 64-bit `int`; anything else is an error
(`none`).  Out-of-range input is an `ErrRange` error, hence also `none`
for callers that check `err == nil`. -/
def goAtoiL (l : List Char) : Option Int :=
  let signed := testAt (fun c => c == '-' || c == '+') l 0
  let neg := testAt (fun c => c == '-') l 0
  let ds := if signed then l.drop 1 else l
  if ds.isEmpty then none
  else if ds.all Char.isDigit then
    let v : Int := if neg then -(digitsVal ds : Int) else (digitsVal ds : Int)
    if minInt64 ≤ v ∧ v ≤ maxInt64 then some v else none
  else none

/-- Go `strconv.Atoi`. -/
def goAtoi (s : String) : Option Int := goAtoiL s.data

/-! ## The PR-number heuristic (`clean.go`, `extractPRNumber`, lines 224-245)

Each Go regular expression is embedded as a matcher on character lists.
`FindStringSubmatch` finds the leftmost starting position at which the
whole pattern matches; `scanFirst` performs that left-to-right scan for
the unanchored patterns.  `\d+` / `\d{4,}` are greedy, and since each
pattern ends with its digit group (or end of text), the capture at a
matching position is the maximal digit run there. -/

/-- `c` is `-` or `_` (the regex class `[-_]`). -/
def isDash (c : Char) : Bool := c == '-' || c == '_'

/-- `c` is `-`, `_` or `/` (the regex class `[-_/]`). -/
def isDashSlash (c : Char) : Bool := c == '-' || c == '_' || c == '/'

/-- The greedy capture of `(\d+)`: the maximal leading digit run,
provided it is non-empty. -/
def nonEmptyDigits (l : List Char) : Option (List Char) :=
  match l.takeWhile Char.isDigit with
  | [] => none
  | d :: ds => some (d :: ds)

/-- Left-to-right scan: the result of a pattern matcher at the leftmost
position where it succeeds. -/
def scanFirst (f : List Char → Option (List Char)) : List Char → Option (List Char)
  | [] => none
  | x :: xs =>
    match f (x :: xs) with
    | some r => some r
    | none => scanFirst f xs

/-- Regex 1, `[-_]pr[-_/](\d+)`, matched at the current position. -/
def pat1At (l : List Char) : Option (List Char) :=
  if testAt isDash l 0 && testAt (fun c => c == 'p') l 1 &&
     testAt (fun c => c == 'r') l 2 && testAt isDashSlash l 3 then
    nonEmptyDigits (l.drop 4)
  else none

/-- Regex 2, `^pr[-_/](\d+)` (anchored). -/
def pat2 (l : List Char) : Option (List Char) :=
  if testAt (fun c => c == 'p') l 0 && testAt (fun c => c == 'r') l 1 &&
     testAt isDashSlash l 2 then
    nonEmptyDigits (l.drop 3)
  else none

/-- Regex 3, `[-_]pull[-_/](\d+)`, matched at the current position. -/
def pat3At (l : List Char) : Option (List Char) :=
  if testAt isDash l 0 && testAt (fun c => c == 'p') l 1 &&
     testAt (fun c => c == 'u') l 2 && testAt (fun c => c == 'l') l 3 &&
     testAt (fun c => c == 'l') l 4 && testAt isDashSlash l 5 then
    nonEmptyDigits (l.drop 6)
  else none

/-- Regex 4, `^pull[-_/](\d+)` (anchored). -/
def pat4 (l : List Char) : Option (List Char) :=
  if testAt (fun c => c == 'p') l 0 && testAt (fun c => c == 'u') l 1 &&
     testAt (fun c => c == 'l') l 2 && testAt (fun c => c == 'l') l 3 &&
     testAt isDashSlash l 4 then
    nonEmptyDigits (l.drop 5)
  else none

/-- Regex 5, `^(\d+)[-_]` (anchored): the greedy leading digit run must be
followed by `-` or `_`; a shorter capture would leave a digit at the
`[-_]` position, so no backtracking succeeds. -/
def pat5 (l : List Char) : Option (List Char) :=
  match l.takeWhile Char.isDigit with
  | [] => none
  | d :: ds => if testAt isDash l (d :: ds).length then some (d :: ds) else none

/-- Regex 6, `[-_](\d{4,})$`, matched at the current position: the digits
must run to the end of the text and number at least 4. -/
def pat6At (l : List Char) : Option (List Char) :=
  match l with
  | [] => none
  | c :: rest =>
    if isDash c && rest.all Char.isDigit && decide (4 ≤ rest.length) then some rest
    else none

/-- The six pattern rules of `extractPRNumber`, in source order. -/
def goPatterns : List (List Char → Option (List Char)) :=
  [scanFirst pat1At, pat2, scanFirst pat3At, pat4, pat5, scanFirst pat6At]

/-- The pattern loop of `extractPRNumber`: first pattern whose match's
capture parses with `strconv.Atoi` wins; otherwise 0. -/
def extractGo : List (List Char → Option (List Char)) → List Char → Int
  | [], _ => 0
  | p :: ps, t =>
    match p t with
    | some cap =>
      match goAtoiL cap with
      | some n => n
      | none => extractGo ps t
    | none => extractGo ps t

/-- `clean.go` lines 224-245, `extractPRNumber`. -/
def extractPRNumber (text : String) : Int := extractGo goPatterns text.data

/-! ## Time model (`time` package behaviour observable by `clean.go`)

Times are `Int` seconds since the Unix epoch.  The zero `time.Time{}` is
January 1 of year 1.  `time.Since` returns a `time.Duration` (64-bit
nanoseconds) and `time.Time.Sub` saturates at the extreme `Duration`
values; in whole seconds the saturation bound is `⌊(2^63-1)/10^9⌋`.
`int(d.Hours() / 24)` truncates the real number of days toward zero,
which on this model is `Int.div` of the seconds by 86400. -/

/-- Seconds since the Unix epoch of the zero `time.Time` (Jan 1, year 1). -/
def goZeroTimeSec : Int := -62135596800

/-- Saturation bound of `time.Duration`, in whole seconds. -/
def goMaxDurationSec : Int := 9223372036

/-- `time.Since(last)` evaluated at `now`, in seconds, with the
`time.Time.Sub` saturation. -/
def timeSinceSec (now last : Int) : Int :=
  max (-goMaxDurationSec) (min (now - last) goMaxDurationSec)

/-- `int(time.Since(last).Hours() / 24)` (`clean.go` lines 77 and 105). -/
def daysSinceCommit (now last : Int) : Int :=
  Int.tdiv (timeSinceSec now last) 86400

/-! ## Data model and the policy engine (`clean.go`, `NewClean`) -/

/-- `clean.go` lines 19-25, `WorktreeInfo`.  `lastCommit` is seconds since
the Unix epoch; a fresh record carries the zero `time.Time`. -/
structure WorktreeInfo where
  path : String
  branch : String
  prNumber : Int
  lastCommit : Int
  prStatus : String
deriving DecidableEq

/-- The Go zero value `WorktreeInfo{}`. -/
def emptyWT : WorktreeInfo := ⟨"", "", 0, goZeroTimeSec, ""⟩

/-- `clean.go` line 60: the skip-main test
`strings.Contains(wt.Path, "/.git") || wt.Branch == "main" || wt.Branch == "master"`. -/
def isMainWorktree (wt : WorktreeInfo) : Bool :=
  goContains wt.path "/.git" || wt.branch == "main" || wt.branch == "master"

/-- `clean.go` lines 65-66: the PR status that the loop body obtains, if
any.  `prOracle` models `getPRStatus` (`none` = the call failed);
`repoKnown` models `repo != nil`. -/
def statusOf (repoKnown : Bool) (prOracle : Int → Option String)
    (wt : WorktreeInfo) : Option String :=
  if decide (wt.prNumber > 0) && repoKnown then prOracle wt.prNumber else none

/-- `clean.go` line 68: `wt.PRStatus = status` when the lookup succeeded. -/
def resolveStatus (repoKnown : Bool) (prOracle : Int → Option String)
    (wt : WorktreeInfo) : WorktreeInfo :=
  match statusOf repoKnown prOracle wt with
  | some s => { wt with prStatus := s }
  | none => wt

/-- The per-record classification performed by the loop of
`clean.go` lines 58-81. -/
inductive Decision where
  | excluded
  | remove
  | stale
  | active
deriving DecidableEq

/-- `clean.go` lines 58-81: skip the main-worktree matches; records whose
resolved PR status is merged or closed go to `toRemove`; otherwise a
record whose commit age strictly exceeds `staleDays` goes to
`staleWorktrees`. -/
def classify (repoKnown : Bool) (prOracle : Int → Option String)
    (now staleDays : Int) (wt : WorktreeInfo) : Decision :=
  if isMainWorktree wt then .excluded
  else
    match statusOf repoKnown prOracle wt with
    | some status =>
      if status == "merged" || status == "closed" then .remove
      else if daysSinceCommit now wt.lastCommit > staleDays then .stale else .active
    | none =>
      if daysSinceCommit now wt.lastCommit > staleDays then .stale else .active

/-- The two lists built by the loop of `clean.go` lines 55-81: the
records classified Remove (with their resolved status stored) and the
records classified stale, in enumeration order. -/
def cleanPartition (repoKnown : Bool) (prOracle : Int → Option String)
    (now staleDays : Int) (wts : List WorktreeInfo) :
    List WorktreeInfo × List WorktreeInfo :=
  ((wts.filter
      (fun wt => decide (classify repoKnown prOracle now staleDays wt = .remove))).map
     (resolveStatus repoKnown prOracle),
   (wts.filter
      (fun wt => decide (classify repoKnown prOracle now staleDays wt = .stale))).map
     (resolveStatus repoKnown prOracle))

/-! ## Interactive stale selection (`clean.go` lines 113-140) -/

/-- `clean.go` lines 124-130: the per-token lookup — `strconv.Atoi`, then
the bounds test `idx > 0 && idx <= len(staleWorktrees)`, then
`staleWorktrees[idx-1]`; tokens failing either test contribute nothing. -/
def staleLookup (stale : List WorktreeInfo) (idxStr : String) : Option WorktreeInfo :=
  match goAtoi idxStr with
  | some idx =>
    if 0 < idx ∧ idx ≤ (stale.length : Int) then stale.get? (idx - 1).toNat else none
  | none => none

/-- `clean.go` lines 113-130: trim the interactive response; empty input
selects nothing, `"all"` selects every listed record, anything else is
split into fields and each field selects through `staleLookup`. -/
def selectStale (stale : List WorktreeInfo) (raw : String) : List WorktreeInfo :=
  let response := goTrimSpace raw
  if response = "" then []
  else if response = "all" then stale
  else (goFields response).filterMap (staleLookup stale)

/-! ## The removal phase (`clean.go` lines 83-141) -/

/-- The paths on which `removeWorktree` is invoked during one run of the
`clean` command body, in order: every Remove-classified record
(lines 86-95, skipped when `dryRun`), then every interactively selected
stale record (lines 113-140, the whole prompt skipped when `dryRun`). -/
def cleanRemovalAttempts (repoKnown : Bool) (prOracle : Int → Option String)
    (now staleDays : Int) (dryRun : Bool) (response : String)
    (wts : List WorktreeInfo) : List String :=
  let part := cleanPartition repoKnown prOracle now staleDays wts
  if dryRun then []
  else part.1.map WorktreeInfo.path ++
       (selectStale part.2 response).map WorktreeInfo.path

/-- Each removal attempt paired with its outcome (`removeOk` models
whether `git worktree remove --force` succeeds on that path).  A failed
attempt only prints a diagnostic (lines 89-93 and 133-137); it never
stops the loop. -/
def cleanEvents (removeOk : String → Bool) (repoKnown : Bool)
    (prOracle : Int → Option String) (now staleDays : Int) (dryRun : Bool)
    (response : String) (wts : List WorktreeInfo) : List (String × Bool) :=
  (cleanRemovalAttempts repoKnown prOracle now staleDays dryRun response wts).map
    (fun p => (p, removeOk p))

/-- `clean.go` lines 40-43 and onward: a failed enumeration aborts the
run with a wrapped error; otherwise the run proceeds to the removal
phases and succeeds. -/
def cleanRun (removeOk : String → Bool)
    (enumResult : Except String (List WorktreeInfo)) (repoKnown : Bool)
    (prOracle : Int → Option String) (now staleDays : Int) (dryRun : Bool)
    (response : String) : Except String (List (String × Bool)) :=
  match enumResult with
  | .error e => .error ("failed to get worktree info: " ++ e)
  | .ok wts =>
    .ok (cleanEvents removeOk repoKnown prOracle now staleDays dryRun response wts)

/-! ## `path/filepath` (Unix rules, as used by both source files) -/

/-- Go `filepath.Base` on Unix: empty path gives `"."`; otherwise strip
trailing slashes, take everything after the last slash, and a path of
only slashes gives `"/"`. -/
def filepathBase (p : String) : String :=
  if p.data.isEmpty then "."
  else
    let l := (p.data.reverse.dropWhile (fun c => c == '/')).reverse
    if l.isEmpty then "/"
    else ⟨(l.reverse.takeWhile (fun c => c != '/')).reverse⟩

/-- The element processing of Go `filepath.Clean`: empty and `.` elements
vanish; `..` pops the latest real element when one is available, is kept
on a rootless path otherwise, and vanishes on a rooted one.  The `stack`
holds the output elements latest-first; a kept `..` is never popped. -/
def cleanComps (rooted : Bool) : List (List Char) → List (List Char) → List (List Char)
  | [], stack => stack.reverse
  | comp :: rest, stack =>
    if comp.isEmpty || comp = ['.'] then cleanComps rooted rest stack
    else if comp = ['.', '.'] then
      match stack with
      | [] =>
        if rooted then cleanComps rooted rest []
        else cleanComps rooted rest [['.', '.']]
      | top :: stk =>
        if top = ['.', '.'] then cleanComps rooted rest (comp :: top :: stk)
        else cleanComps rooted rest stk
    else cleanComps rooted rest (comp :: stack)

/-- Go `filepath.Clean` on Unix. -/
def filepathClean (p : String) : String :=
  if p.data.isEmpty then "."
  else
    let rooted := testAt (fun c => c == '/') p.data 0
    let stack := cleanComps rooted (splitOnChar '/' p.data) []
    if rooted then ⟨'/' :: (List.intercalate ['/'] stack)⟩
    else if stack.isEmpty then "."
    else ⟨List.intercalate ['/'] stack⟩

/-- Go `filepath.Join` for two elements: empty elements are skipped and
the slash-joined remainder is cleaned. -/
def filepathJoin (a b : String) : String :=
  if a ≠ "" then filepathClean (a ++ "/" ++ b)
  else if b ≠ "" then filepathClean b
  else ""

/-! ## The worktree enumerator (`clean.go`, `getWorktreeInfo`, lines 157-222) -/

/-- `clean.go` lines 176-181 / 194-199 / 203-209: before a parsed record
is appended, a still-zero PR number is extracted from the final path
segment. -/
def finalizeWT (wt : WorktreeInfo) : WorktreeInfo :=
  if wt.prNumber = 0 then
    { wt with prNumber := extractPRNumber (filepathBase wt.path) }
  else wt

/-- `clean.go` lines 174-209: the line loop over the porcelain output,
carrying the record under construction. -/
def parseWTGo : List String → WorktreeInfo → List WorktreeInfo
  | [], current => if current.path ≠ "" then [finalizeWT current] else []
  | line :: rest, current =>
    if goHasPre "worktree " line then
      (if current.path ≠ "" then [finalizeWT current] else []) ++
        parseWTGo rest { emptyWT with path := goDropStr line 9 }
    else if goHasPre "branch refs/heads/" line then
      let br := goDropStr line 18
      let n0 := extractPRNumber br
      let n := if n0 = 0 then extractPRNumber (filepathBase current.path) else n0
      parseWTGo rest { current with branch := br, prNumber := n }
    else if line = "" ∧ current.path ≠ "" then
      finalizeWT current :: parseWTGo rest emptyWT
    else parseWTGo rest current

/-- `clean.go` lines 170-209: parse the whole porcelain output of
`git worktree list --porcelain`. -/
def parseWorktreePorcelain (output : String) : List WorktreeInfo :=
  parseWTGo (goSplitLines output) emptyWT

/-- `clean.go` lines 212-219 for one record: for a record with a
non-empty branch, query the last commit time (`commitDate` models
`getLastCommitDate`; `none` = the call failed); a failure leaves the
field untouched. -/
def enrichOne (commitDate : String → Option Int) (wt : WorktreeInfo) : WorktreeInfo :=
  if wt.branch ≠ "" then
    match commitDate wt.path with
    | some t => { wt with lastCommit := t }
    | none => wt
  else wt

/-- `clean.go` lines 157-222, `getWorktreeInfo`: parse, then enrich every
record with its last commit date. -/
def getWorktreeInfoM (commitDate : String → Option Int) (output : String) :
    List WorktreeInfo :=
  (parseWorktreePorcelain output).map (enrichOne commitDate)

/-! ## `internal/worktree/worktree.go` -/

/-- The external effects `AddWithOptions` consults before invoking
`git worktree add`: the raw stdout of `git worktree list --porcelain`,
the `os.Stat` existence test, and the raw stdout of
`git rev-parse --git-common-dir` (`.error` = the call failed). -/
structure AddEnv where
  listOutput : Except String String
  dirExists : String → Bool
  commonGitDirRaw : Except String String

/-- `worktree.go` lines 70-85: the line scan of `getWorktreePathForBranch`.
A `worktree ` line updates the current path; a `branch refs/heads/` line
naming the requested branch returns the current path; independently, a
current path whose final segment equals the branch name returns it. -/
def findWTPath (branch : String) : List String → String → Option String
  | [], _ => none
  | line :: rest, currentPath =>
    let cp := if goHasPre "worktree " line then goDropStr line 9 else currentPath
    if goHasPre "branch refs/heads/" line && (goDropStr line 18 == branch) then some cp
    else if decide (cp ≠ "") && (filepathBase cp == branch) then some cp
    else findWTPath branch rest cp

/-- `worktree.go` lines 61-87, `getWorktreePathForBranch`. -/
def getWorktreePathForBranchM (listOutput : Except String String)
    (branch : String) : Except String String :=
  match listOutput with
  | .error e => .error e
  | .ok output =>
    match findWTPath branch (goSplitLines (goTrimSpace output)) "" with
    | some p => .ok p
    | none => .error ("worktree for branch " ++ branch ++ " not found")

/-- `worktree.go` lines 89-99, `getCommonGitDirectory`: join the raw
`rev-parse` output (not trimmed by the source) with `..`. -/
def getCommonGitDirectoryM (raw : Except String String) : Except String String :=
  match raw with
  | .error e => .error ("could not get git common dir: " ++ e)
  | .ok b => .ok (filepathJoin b "..")

/-- `worktree.go` lines 18-32: the target directory of the new worktree. -/
def computeBranchPath (env : AddEnv) (branch path : String) (appendBranch : Bool) :
    Except String String :=
  if path ≠ "" then
    .ok (if appendBranch then filepathJoin path branch else path)
  else
    match getCommonGitDirectoryM env.commonGitDirRaw with
    | .error e => .error ("could not get working directory: " ++ e)
    | .ok gitPath => .ok (filepathJoin gitPath branch)

/-- Outcome of `AddWithOptions` up to the `git worktree add` boundary:
either an error returned before the subprocess runs, or the invocation
of `git worktree add <branchPath> <branch>`. -/
inductive AddOutcome where
  | err (msg : String)
  | invoke (branchPath : String)
deriving DecidableEq

/-- `worktree.go` lines 17-45, `AddWithOptions`, up to the
`git worktree add` invocation: compute the target directory, refuse when
`getWorktreePathForBranch` succeeds with a non-empty path, refuse when
the target directory exists, and otherwise invoke the add. -/
def addWithOptions (env : AddEnv) (branch path : String) (appendBranch : Bool) :
    AddOutcome :=
  match computeBranchPath env branch path appendBranch with
  | .error m => .err m
  | .ok branchPath =>
    let wtExists :=
      match getWorktreePathForBranchM env.listOutput branch with
      | .ok existing =>
        if existing ≠ "" then
          some ("worktree for branch '" ++ branch ++ "' already exists at: " ++ existing)
        else none
      | .error _ => none
    match wtExists with
    | some m => .err m
    | none =>
      if env.dirExists branchPath then
        .err ("directory already exists at: " ++ branchPath)
      else .invoke branchPath

/-! ## Porcelain blocks

`git worktree list --porcelain` prints, per worktree, a block that starts
with a `worktree <path>` line, optionally contains a
`branch refs/heads/<name>` line, and is terminated by a blank line (the
last one possibly by end of output).  A block is abstracted as the pair
of its path and optional branch name. -/

/-- One porcelain worktree block: path and optional branch. -/
abbrev Block := String × Option String

/-- The non-blank lines of one block. -/
def blockLines : Block → List String
  | (p, none) => ["worktree " ++ p]
  | (p, some br) => ["worktree " ++ p, "branch refs/heads/" ++ br]

/-- Porcelain line list with every block followed by its blank
terminator (the shape `getWorktreeInfo` splits its raw output into,
minus the final empty fragment, which the parser ignores anyway). -/
def porcelainLines : List Block → List String
  | [] => []
  | b :: bs => blockLines b ++ "" :: porcelainLines bs

/-- Porcelain line list with blank lines only between blocks — the shape
produced by `strings.TrimSpace` + `strings.Split` in
`getWorktreePathForBranch`. -/
def wtLines : List Block → List String
  | [] => []
  | [b] => blockLines b
  | b :: bs => blockLines b ++ "" :: wtLines bs

/-- The record `getWorktreeInfo` builds from one block. -/
def blockRecord : Block → WorktreeInfo
  | (p, none) =>
    { path := p, branch := "", prNumber := extractPRNumber (filepathBase p),
      lastCommit := goZeroTimeSec, prStatus := "" }
  | (p, some br) =>
    { path := p, branch := br,
      prNumber :=
        if extractPRNumber br = 0 then extractPRNumber (filepathBase p)
        else extractPRNumber br,
      lastCommit := goZeroTimeSec, prStatus := "" }
/-- A space-separated interactive response built from tokens (the input
shape `clean.go` line 124 splits back apart). -/
def joinTok : List String → String
  | [] => ""
  | [t] => t
  | t :: ts => t ++ " " ++ joinTok ts

/-! ## Helper lemmas -/

lemma goHasPre_self_append (a t : String) : goHasPre a (a ++ t) = true := by
  unfold goHasPre
  rw [String.data_append, List.isPrefixOf_iff_prefix]
  exact List.prefix_append a.data t.data

lemma goHasPre_of_head_ne (a s : String) (c d : Char)
    (ha : a.data.head? = some c) (hs : s.data.head? = some d) (h : c ≠ d) :
    goHasPre a s = false := by
  unfold goHasPre
  cases hla : a.data with
  | nil => rw [hla] at ha; simp at ha
  | cons x xs =>
    cases hls : s.data with
    | nil => rw [hls] at hs; simp at hs
    | cons y ys =>
      rw [hla] at ha; rw [hls] at hs
      simp only [List.head?_cons, Option.some.injEq] at ha hs
      subst ha; subst hs
      simp only [List.isPrefixOf, Bool.and_eq_false_iff]
      left
      simpa using h

lemma head_data_append_lit (a t : String) (c : Char) (h : a.data.head? = some c) :
    (a ++ t).data.head? = some c := by
  rw [String.data_append]
  cases hla : a.data with
  | nil => rw [hla] at h; simp at h
  | cons x xs => rw [hla] at h; simpa using h

lemma goHasPre_worktree_branchline (br : String) :
    goHasPre "worktree " ("branch refs/heads/" ++ br) = false := by
  refine goHasPre_of_head_ne _ _ 'w' 'b' rfl ?_ (by decide)
  exact head_data_append_lit _ _ _ rfl

lemma goHasPre_branch_worktreeline (p : String) :
    goHasPre "branch refs/heads/" ("worktree " ++ p) = false := by
  refine goHasPre_of_head_ne _ _ 'b' 'w' rfl ?_ (by decide)
  exact head_data_append_lit _ _ _ rfl

lemma goDropStr_worktree (p : String) : goDropStr ("worktree " ++ p) 9 = p := by
  unfold goDropStr
  rw [String.data_append]
  rw [show (9 : Nat) = ("worktree " : String).data.length from rfl, List.drop_left]

lemma goDropStr_branch (br : String) :
    goDropStr ("branch refs/heads/" ++ br) 18 = br := by
  unfold goDropStr
  rw [String.data_append]
  rw [show (18 : Nat) = ("branch refs/heads/" : String).data.length from rfl, List.drop_left]

lemma append_lit_ne_empty (a t : String) (c : Char) (h : a.data.head? = some c) :
    (a ++ t) ≠ "" := by
  intro hcon
  have : (a ++ t).data = [] := by rw [hcon]
  have h2 := head_data_append_lit a t c h
  rw [this] at h2
  simp at h2

lemma worktree_line_ne_empty (p : String) : ("worktree " ++ p) ≠ "" :=
  append_lit_ne_empty _ _ 'w' rfl

lemma branch_line_ne_empty (br : String) : ("branch refs/heads/" ++ br) ≠ "" :=
  append_lit_ne_empty _ _ 'b' rfl

lemma testAt_nil (p : Char → Bool) (i : Nat) : testAt p [] i = false := by
  simp [testAt]

lemma testAt_cons_zero (p : Char → Bool) (c : Char) (l : List Char) :
    testAt p (c :: l) 0 = p c := by
  simp [testAt]

lemma testAt_cons_succ (p : Char → Bool) (c : Char) (l : List Char) (i : Nat) :
    testAt p (c :: l) (i + 1) = testAt p l i := by
  simp [testAt]

lemma digit_toNat_le (c : Char) (h : c.isDigit = true) :
    48 ≤ c.toNat ∧ c.toNat ≤ 57 := by
  unfold Char.isDigit at h
  simp only [Bool.and_eq_true, decide_eq_true_eq] at h
  constructor
  · exact h.1
  · exact h.2

lemma digit_beq_false (c d : Char) (h : c.isDigit = true) (hd : d.toNat < 48 ∨ 57 < d.toNat) :
    (c == d) = false := by
  have hc := digit_toNat_le c h
  rw [beq_eq_false_iff_ne]
  intro hcon
  subst hcon
  omega

lemma digit_not_p (c : Char) (h : c.isDigit = true) : (c == 'p') = false :=
  digit_beq_false c 'p' h (by right; decide)

lemma goAtoiL_digits (l : List Char) (h1 : l ≠ []) (h2 : l.all Char.isDigit = true)
    (h3 : (digitsVal l : Int) ≤ maxInt64) : goAtoiL l = some ((digitsVal l : Int)) := by
  cases l with
  | nil => exact absurd rfl h1
  | cons d tl =>
    have hd : d.isDigit = true := by
      rw [List.all_eq_true] at h2
      exact h2 d (by simp)
    have hsign : testAt (fun c => c == '-' || c == '+') (d :: tl) 0 = false := by
      rw [testAt_cons_zero]
      rw [digit_beq_false d '-' hd (by left; decide), digit_beq_false d '+' hd (by left; decide)]
      rfl
    have hneg : testAt (fun c => c == '-') (d :: tl) 0 = false := by
      rw [testAt_cons_zero]
      exact digit_beq_false d '-' hd (by left; decide)
    unfold goAtoiL
    rw [hsign, hneg]
    simp only [Bool.false_eq_true, if_false]
    have hb : minInt64 ≤ (digitsVal (d :: tl) : Int) ∧ (digitsVal (d :: tl) : Int) ≤ maxInt64 := by
      refine ⟨?_, h3⟩
      have h0 : (0 : Int) ≤ (digitsVal (d :: tl) : Int) := Int.natCast_nonneg _
      unfold minInt64
      omega
    rw [if_neg (by simp : ¬((d :: tl).isEmpty = true)), if_pos h2, if_pos hb]

lemma scanFirst_cons (f : List Char → Option (List Char)) (x : Char) (xs : List Char)
    (h : f (x :: xs) = none) : scanFirst f (x :: xs) = scanFirst f xs := by
  conv_lhs => rw [scanFirst, h]

lemma pat1At_none_of_snd (l : List Char) (h : testAt (fun c => c == 'p') l 1 = false) :
    pat1At l = none := by
  unfold pat1At
  rw [h]
  simp

lemma pat3At_none_of_snd (l : List Char) (h : testAt (fun c => c == 'p') l 1 = false) :
    pat3At l = none := by
  unfold pat3At
  rw [h]
  simp

lemma scanFirst_none_sndP (f : List Char → Option (List Char))
    (hf : ∀ l, testAt (fun c => c == 'p') l 1 = false → f l = none) :
    ∀ l : List Char, 'p' ∉ l.drop 1 → scanFirst f l = none := by
  intro l
  induction l with
  | nil => intro _; rfl
  | cons x xs ih =>
    intro hp
    simp only [List.drop_one, List.tail_cons] at hp
    have hx : f (x :: xs) = none := by
      apply hf
      cases xs with
      | nil => simp [testAt]
      | cons y ys =>
        rw [testAt_cons_succ, testAt_cons_zero]
        rw [beq_eq_false_iff_ne]
        intro hcon
        exact hp (by rw [hcon]; simp)
    rw [scanFirst_cons f x xs hx]
    apply ih
    intro hcon
    exact hp (List.mem_of_mem_drop hcon)

lemma p_not_mem_digits (ds : List Char) (h : ds.all Char.isDigit = true) : 'p' ∉ ds := by
  intro hmem
  rw [List.all_eq_true] at h
  exact absurd (h 'p' hmem) (by decide)

lemma nonEmptyDigits_all (ds : List Char) (h1 : ds ≠ []) (h2 : ds.all Char.isDigit = true) :
    nonEmptyDigits ds = some ds := by
  unfold nonEmptyDigits
  have ht : ds.takeWhile Char.isDigit = ds := by
    rw [List.takeWhile_eq_self_iff]
    rw [List.all_eq_true] at h2
    exact h2
  rw [ht]
  cases ds with
  | nil => exact absurd rfl h1
  | cons d tl => rfl

lemma extract_pr_dash_digits (ds : String) (h1 : ds.data ≠ [])
    (h2 : ds.data.all Char.isDigit = true)
    (h3 : (digitsVal ds.data : Int) ≤ maxInt64) :
    extractPRNumber ("pr-" ++ ds) = (digitsVal ds.data : Int) := by
  have hdata : ("pr-" ++ ds).data = 'p' :: 'r' :: '-' :: ds.data := by
    rw [String.data_append, show "pr-".data = ['p', 'r', '-'] from rfl]
    simp
  have hscan1 : scanFirst pat1At ('p' :: 'r' :: '-' :: ds.data) = none := by
    apply scanFirst_none_sndP pat1At pat1At_none_of_snd
    intro hmem
    simp only [List.drop_succ_cons, List.drop_zero, List.mem_cons] at hmem
    rcases hmem with h | h | h
    · exact absurd h (by decide)
    · exact absurd h (by decide)
    · exact p_not_mem_digits ds.data h2 h
  have hpat2 : pat2 ('p' :: 'r' :: '-' :: ds.data) = some ds.data := by
    unfold pat2
    rw [testAt_cons_zero, testAt_cons_succ, testAt_cons_zero,
        testAt_cons_succ, testAt_cons_succ, testAt_cons_zero]
    simp only [show ('p' == 'p') = true from rfl, show ('r' == 'r') = true from rfl,
               show isDashSlash '-' = true from rfl, Bool.and_self, if_true]
    show nonEmptyDigits ds.data = some ds.data
    exact nonEmptyDigits_all ds.data h1 h2
  unfold extractPRNumber
  rw [hdata]
  simp only [goPatterns, extractGo, hscan1, hpat2, goAtoiL_digits ds.data h1 h2 h3]

lemma extract_pull_slash (ds : String) (h1 : ds.data ≠ [])
    (h2 : ds.data.all Char.isDigit = true)
    (h3 : (digitsVal ds.data : Int) ≤ maxInt64) :
    extractPRNumber ("pull/" ++ ds) = (digitsVal ds.data : Int) := by
  have hdata : ("pull/" ++ ds).data = 'p' :: 'u' :: 'l' :: 'l' :: '/' :: ds.data := by
    rw [String.data_append, show "pull/".data = ['p', 'u', 'l', 'l', '/'] from rfl]
    simp
  have hnop : ∀ c ∈ ('p' :: 'u' :: 'l' :: 'l' :: '/' :: ds.data).drop 1, c ≠ 'p' := by
    intro c hc
    simp only [List.drop_succ_cons, List.drop_zero, List.mem_cons] at hc
    rcases hc with h | h | h | h | h
    all_goals first
      | (subst h; decide)
      | (intro hcon; subst hcon; exact p_not_mem_digits ds.data h2 h)
  have hscan1 : scanFirst pat1At ('p' :: 'u' :: 'l' :: 'l' :: '/' :: ds.data) = none := by
    apply scanFirst_none_sndP pat1At pat1At_none_of_snd
    intro hmem
    exact hnop 'p' hmem rfl
  have hscan3 : scanFirst pat3At ('p' :: 'u' :: 'l' :: 'l' :: '/' :: ds.data) = none := by
    apply scanFirst_none_sndP pat3At pat3At_none_of_snd
    intro hmem
    exact hnop 'p' hmem rfl
  have hpat2 : pat2 ('p' :: 'u' :: 'l' :: 'l' :: '/' :: ds.data) = none := by
    unfold pat2
    have hu : testAt (fun c => c == 'r') ('p' :: 'u' :: 'l' :: 'l' :: '/' :: ds.data) 1 = false := by
      rw [testAt_cons_succ, testAt_cons_zero]
      rfl
    rw [hu]
    simp
  have hpat4' : pat4 ('p' :: 'u' :: 'l' :: 'l' :: '/' :: ds.data) = some ds.data := by
    unfold pat4
    rw [testAt_cons_zero]
    rw [testAt_cons_succ, testAt_cons_zero]
    rw [testAt_cons_succ, testAt_cons_succ, testAt_cons_zero]
    rw [testAt_cons_succ, testAt_cons_succ, testAt_cons_succ, testAt_cons_zero]
    rw [testAt_cons_succ, testAt_cons_succ, testAt_cons_succ, testAt_cons_succ,
        testAt_cons_zero]
    simp only [show ('p' == 'p') = true from rfl, show ('u' == 'u') = true from rfl,
               show ('l' == 'l') = true from rfl, show isDashSlash '/' = true from rfl,
               Bool.and_self, if_true]
    show nonEmptyDigits ds.data = some ds.data
    exact nonEmptyDigits_all ds.data h1 h2
  unfold extractPRNumber
  rw [hdata]
  simp only [goPatterns, extractGo, hscan1, hscan3, hpat2, hpat4',
             goAtoiL_digits ds.data h1 h2 h3]

lemma extract_digits_feature (ds : String) (h1 : ds.data ≠ [])
    (h2 : ds.data.all Char.isDigit = true)
    (h3 : (digitsVal ds.data : Int) ≤ maxInt64) :
    extractPRNumber (ds ++ "-feature") = (digitsVal ds.data : Int) := by
  have hdata : (ds ++ "-feature").data =
      ds.data ++ ['-', 'f', 'e', 'a', 't', 'u', 'r', 'e'] := by
    rw [String.data_append, show "-feature".data = ['-', 'f', 'e', 'a', 't', 'u', 'r', 'e'] from rfl]
  have hnop : 'p' ∉ ds.data ++ ['-', 'f', 'e', 'a', 't', 'u', 'r', 'e'] := by
    intro hmem
    rw [List.mem_append] at hmem
    rcases hmem with h | h
    · exact p_not_mem_digits ds.data h2 h
    · exact absurd h (by decide)
  have hnop1 : 'p' ∉ (ds.data ++ ['-', 'f', 'e', 'a', 't', 'u', 'r', 'e']).drop 1 :=
    fun hmem => hnop (List.mem_of_mem_drop hmem)
  have hscan1 : scanFirst pat1At (ds.data ++ ['-', 'f', 'e', 'a', 't', 'u', 'r', 'e']) = none :=
    scanFirst_none_sndP pat1At pat1At_none_of_snd _ hnop1
  have hscan3 : scanFirst pat3At (ds.data ++ ['-', 'f', 'e', 'a', 't', 'u', 'r', 'e']) = none :=
    scanFirst_none_sndP pat3At pat3At_none_of_snd _ hnop1
  have hhead : testAt (fun c => c == 'p') (ds.data ++ ['-', 'f', 'e', 'a', 't', 'u', 'r', 'e']) 0 = false := by
    cases hds : ds.data with
    | nil => exact absurd hds h1
    | cons d tl =>
      have hd : d.isDigit = true := by
        rw [hds, List.all_eq_true] at h2
        exact h2 d (by simp)
      rw [List.cons_append, testAt_cons_zero]
      exact digit_not_p d hd
  have hpat2 : pat2 (ds.data ++ ['-', 'f', 'e', 'a', 't', 'u', 'r', 'e']) = none := by
    unfold pat2
    rw [hhead]
    simp
  have hpat4 : pat4 (ds.data ++ ['-', 'f', 'e', 'a', 't', 'u', 'r', 'e']) = none := by
    unfold pat4
    rw [hhead]
    simp
  have htake : (ds.data ++ ['-', 'f', 'e', 'a', 't', 'u', 'r', 'e']).takeWhile Char.isDigit = ds.data := by
    rw [List.takeWhile_append]
    have hself : ds.data.takeWhile Char.isDigit = ds.data := by
      rw [List.takeWhile_eq_self_iff]
      rw [List.all_eq_true] at h2
      exact h2
    rw [if_pos (by rw [hself]),
        show List.takeWhile Char.isDigit ['-', 'f', 'e', 'a', 't', 'u', 'r', 'e'] = [] from rfl]
    simp
  have hpat5 : pat5 (ds.data ++ ['-', 'f', 'e', 'a', 't', 'u', 'r', 'e']) = some ds.data := by
    unfold pat5
    rw [htake]
    cases hds : ds.data with
    | nil => exact absurd hds h1
    | cons d tl =>
      have hidx : testAt isDash ((d :: tl) ++ ['-', 'f', 'e', 'a', 't', 'u', 'r', 'e'])
          (d :: tl).length = true := by
        unfold testAt
        rw [List.get?_eq_getElem?, List.getElem?_append_right (Nat.le_refl _)]
        simp
        decide
      simp only [hidx, if_true]
  unfold extractPRNumber
  rw [hdata]
  simp only [goPatterns, extractGo, hscan1, hscan3, hpat2, hpat4, hpat5,
             goAtoiL_digits ds.data h1 h2 h3]

lemma extract_no_match (s : String) (h : ∀ f ∈ goPatterns, f s.data = none) :
    extractPRNumber s = 0 := by
  have h1 := h (scanFirst pat1At) (by simp [goPatterns])
  have h2 := h pat2 (by simp [goPatterns])
  have h3 := h (scanFirst pat3At) (by simp [goPatterns])
  have h4 := h pat4 (by simp [goPatterns])
  have h5 := h pat5 (by simp [goPatterns])
  have h6 := h (scanFirst pat6At) (by simp [goPatterns])
  unfold extractPRNumber
  simp only [goPatterns, extractGo, h1, h2, h3, h4, h5, h6]

lemma takeWhile_length_append_le (p : Char → Bool) (a b : List Char) :
    (a.takeWhile p).length ≤ ((a ++ b).takeWhile p).length := by
  induction a with
  | nil => simp
  | cons x xs ih =>
    by_cases hx : p x = true
    · simp only [List.cons_append, List.takeWhile_cons, hx, if_true, List.length_cons]
      omega
    · simp only [List.cons_append, List.takeWhile_cons, hx]
      simp [hx]

lemma scan6_none_short (l : List Char)
    (h : (l.reverse.takeWhile Char.isDigit).length < 4) :
    scanFirst pat6At l = none := by
  induction l with
  | nil => rfl
  | cons x xs ih =>
    have hmono : (xs.reverse.takeWhile Char.isDigit).length ≤
        ((x :: xs).reverse.takeWhile Char.isDigit).length := by
      rw [show (x :: xs).reverse = xs.reverse ++ [x] from by simp]
      exact takeWhile_length_append_le _ _ _
    have hx : pat6At (x :: xs) = none := by
      unfold pat6At
      by_cases hc : (isDash x && xs.all Char.isDigit && decide (4 ≤ xs.length)) = true
      · exfalso
        simp only [Bool.and_eq_true, decide_eq_true_eq] at hc
        have hxsrev : xs.reverse.all Char.isDigit = true := by
          rw [List.all_reverse]
          exact hc.1.2
        have hlen : xs.length ≤ ((x :: xs).reverse.takeWhile Char.isDigit).length := by
          have hself : xs.reverse.takeWhile Char.isDigit = xs.reverse := by
            rw [List.takeWhile_eq_self_iff]
            rw [List.all_eq_true] at hxsrev
            exact hxsrev
          have step := takeWhile_length_append_le Char.isDigit xs.reverse [x]
          rw [hself] at step
          rw [show (x :: xs).reverse = xs.reverse ++ [x] from by simp]
          simpa using step
        omega
      · simp only [Bool.not_eq_true] at hc
        show (if (isDash x && xs.all Char.isDigit && decide (4 ≤ xs.length)) = true
              then some xs else none) = none
        rw [hc]
        simp
    rw [scanFirst_cons _ _ _ hx]
    exact ih (by omega)

lemma extract_zero_short_suffix (s : String)
    (ha : scanFirst pat1At s.data = none) (hb : pat2 s.data = none)
    (hc : scanFirst pat3At s.data = none) (hd : pat4 s.data = none)
    (he : pat5 s.data = none)
    (hf : (s.data.reverse.takeWhile Char.isDigit).length < 4) :
    extractPRNumber s = 0 := by
  have h6 := scan6_none_short s.data hf
  unfold extractPRNumber
  simp only [goPatterns, extractGo, ha, hb, hc, hd, he, h6]

/-- C1: the PR-number heuristic tries its six pattern rules in the fixed
source order (pr infix, pr prefix, pull infix, pull prefix, leading
digits, trailing 4-or-more-digit suffix) and returns the numeric capture
of the first rule that matches: every string `pr-<N>`, `pull/<N>` or
`<N>-feature` yields `N`; a string matched by no rule yields 0; a string
whose only candidate is a trailing digit suffix shorter than 4 yields 0;
and the concrete inputs show an earlier rule beating a later one. -/
theorem extractPR_order_spec :
    (∀ ds : String, ds.data ≠ [] → ds.data.all Char.isDigit = true →
       (digitsVal ds.data : Int) ≤ maxInt64 →
       extractPRNumber ("pr-" ++ ds) = (digitsVal ds.data : Int)) ∧
    (∀ ds : String, ds.data ≠ [] → ds.data.all Char.isDigit = true →
       (digitsVal ds.data : Int) ≤ maxInt64 →
       extractPRNumber ("pull/" ++ ds) = (digitsVal ds.data : Int)) ∧
    (∀ ds : String, ds.data ≠ [] → ds.data.all Char.isDigit = true →
       (digitsVal ds.data : Int) ≤ maxInt64 →
       extractPRNumber (ds ++ "-feature") = (digitsVal ds.data : Int)) ∧
    (∀ s : String, (∀ f ∈ goPatterns, f s.data = none) → extractPRNumber s = 0) ∧
    (∀ s : String,
       scanFirst pat1At s.data = none → pat2 s.data = none →
       scanFirst pat3At s.data = none → pat4 s.data = none → pat5 s.data = none →
       (s.data.reverse.takeWhile Char.isDigit).length < 4 →
       extractPRNumber s = 0) ∧
    extractPRNumber "x-pr-7-1234" = 7 ∧
    extractPRNumber "pull-55-pr-66" = 66 :=
  ⟨extract_pr_dash_digits, extract_pull_slash, extract_digits_feature, extract_no_match,
   extract_zero_short_suffix, by decide, by decide⟩

theorem extractPR_order_spec_witness :
    extractPRNumber ("pr-" ++ "123") = 123 ∧ extractPRNumber ("pull/" ++ "9") = 9 ∧
    extractPRNumber ("7" ++ "-feature") = 7 ∧ extractPRNumber "main" = 0 ∧
    extractPRNumber "feature-123" = 0 := by
  refine ⟨?_, ?_, ?_, ?_, ?_⟩
  · have h := extractPR_order_spec.1 "123" (by decide) (by decide) (by decide)
    rw [h]
    decide
  · have h := extractPR_order_spec.2.1 "9" (by decide) (by decide) (by decide)
    rw [h]
    decide
  · have h := extractPR_order_spec.2.2.1 "7" (by decide) (by decide) (by decide)
    rw [h]
    decide
  · refine extractPR_order_spec.2.2.2.1 "main" ?_
    intro f hf
    simp only [goPatterns, List.mem_cons, List.not_mem_nil, or_false] at hf
    rcases hf with rfl | rfl | rfl | rfl | rfl | rfl <;> decide
  · exact extractPR_order_spec.2.2.2.2.1 "feature-123" (by decide) (by decide)
      (by decide) (by decide) (by decide) (by decide)

lemma classify_not_main (rk : Bool) (po : Int → Option String) (now sd : Int)
    (wt : WorktreeInfo) (hmain : isMainWorktree wt = false) :
    classify rk po now sd wt =
      (match statusOf rk po wt with
       | some status =>
         if status == "merged" || status == "closed" then .remove
         else if daysSinceCommit now wt.lastCommit > sd then .stale else .active
       | none =>
         if daysSinceCommit now wt.lastCommit > sd then .stale else .active) := by
  unfold classify
  rw [hmain]
  simp

lemma days_of_offset (now : Int) (k : Int) (h1 : 0 ≤ k)
    (h2 : k * 86400 ≤ goMaxDurationSec) :
    daysSinceCommit now (now - k * 86400) = k := by
  unfold daysSinceCommit timeSinceSec
  have h3 : now - (now - k * 86400) = k * 86400 := by ring
  rw [h3]
  have h4 : min (k * 86400) goMaxDurationSec = k * 86400 := min_eq_left h2
  rw [h4]
  have h5 : max (-goMaxDurationSec) (k * 86400) = k * 86400 := by
    apply max_eq_right
    unfold goMaxDurationSec
    omega
  rw [h5]
  have h6 : k * 86400 = 86400 * k := by ring
  rw [h6]
  exact Int.mul_tdiv_cancel_left k (by norm_num)

/-- C2: for a non-excluded record with no usable PR status, staleness is
exactly the strict comparison `daysSinceCommit > staleDays`, where the
day count truncates the hours since the last commit divided by 24; with
threshold 30, a commit 31 days old is Stale and one exactly 30 days old
is Active. -/
theorem stale_boundary_spec :
    (∀ (repoKnown : Bool) (prOracle : Int → Option String) (now staleDays : Int)
       (wt : WorktreeInfo),
       isMainWorktree wt = false →
       (statusOf repoKnown prOracle wt = none ∨
        ∃ s, statusOf repoKnown prOracle wt = some s ∧ s ≠ "merged" ∧ s ≠ "closed") →
       (classify repoKnown prOracle now staleDays wt = .stale ↔
          daysSinceCommit now wt.lastCommit > staleDays)) ∧
    (∀ (repoKnown : Bool) (prOracle : Int → Option String) (now : Int)
       (wt : WorktreeInfo),
       isMainWorktree wt = false → statusOf repoKnown prOracle wt = none →
       wt.lastCommit = now - 31 * 86400 →
       classify repoKnown prOracle now 30 wt = .stale) ∧
    (∀ (repoKnown : Bool) (prOracle : Int → Option String) (now : Int)
       (wt : WorktreeInfo),
       isMainWorktree wt = false → statusOf repoKnown prOracle wt = none →
       wt.lastCommit = now - 30 * 86400 →
       classify repoKnown prOracle now 30 wt = .active) := by
  refine ⟨?_, ?_, ?_⟩
  · intro rk po now sd wt hmain hst
    rw [classify_not_main rk po now sd wt hmain]
    rcases hst with hnone | ⟨s, hsome, hm, hc⟩
    · rw [hnone]
      by_cases hday : daysSinceCommit now wt.lastCommit > sd
      · simp [hday]
      · simp [hday]
    · rw [hsome]
      have hbeq : (s == "merged" || s == "closed") = false := by
        simp [hm, hc]
      simp only [hbeq, Bool.false_eq_true, if_false]
      by_cases hday : daysSinceCommit now wt.lastCommit > sd
      · simp [hday]
      · simp [hday]
  · intro rk po now wt hmain hst hlast
    rw [classify_not_main rk po now 30 wt hmain, hst, hlast,
        days_of_offset now 31 (by norm_num) (by unfold goMaxDurationSec; norm_num)]
    norm_num
  · intro rk po now wt hmain hst hlast
    rw [classify_not_main rk po now 30 wt hmain, hst, hlast,
        days_of_offset now 30 (by norm_num) (by unfold goMaxDurationSec; norm_num)]
    norm_num

theorem stale_boundary_spec_witness :
    classify false (fun _ => none) 0 30 ⟨"/w/old", "feat", 0, -2678400, ""⟩ = .stale ∧
    classify false (fun _ => none) 0 30 ⟨"/w/act", "feat", 0, -2592000, ""⟩ = .active := by
  constructor
  · exact stale_boundary_spec.2.1 false (fun _ => none) 0 _ (by decide) (by decide)
      (by norm_num)
  · exact stale_boundary_spec.2.2 false (fun _ => none) 0 _ (by decide) (by decide)
      (by norm_num)

/-- C3: a non-excluded record whose PR-status lookup succeeds with
`merged` or `closed` is classified Remove and never Stale, for every
last-commit time. -/
theorem merged_closed_removed :
    ∀ (repoKnown : Bool) (prOracle : Int → Option String) (now staleDays : Int)
      (wt : WorktreeInfo),
      isMainWorktree wt = false → 0 < wt.prNumber → repoKnown = true →
      (prOracle wt.prNumber = some "merged" ∨ prOracle wt.prNumber = some "closed") →
      classify repoKnown prOracle now staleDays wt = .remove ∧
      classify repoKnown prOracle now staleDays wt ≠ .stale := by
  intro rk po now sd wt hmain hpr hrk hst
  have hstatus : statusOf rk po wt = po wt.prNumber := by
    unfold statusOf
    rw [hrk]
    simp [hpr]
  have hrem : classify rk po now sd wt = .remove := by
    rw [classify_not_main rk po now sd wt hmain, hstatus]
    rcases hst with h | h
    · rw [h]
      simp
    · rw [h]
      simp
  exact ⟨hrem, by rw [hrem]; decide⟩

theorem merged_closed_removed_witness :
    classify true (fun _ => some "merged") 0 30 ⟨"/w/pr-7", "pr-7", 7, -9999999999, ""⟩ =
      .remove ∧
    classify true (fun _ => some "merged") 0 30 ⟨"/w/pr-7", "pr-7", 7, -9999999999, ""⟩ ≠
      .stale :=
  merged_closed_removed true (fun _ => some "merged") 0 30 _ (by decide) (by decide) rfl
    (Or.inl rfl)

/-- C5: with the dry-run flag set, the clean command performs no removal
invocation at all, for every enumeration result, PR status oracle and
classification; the interactive stale step contributes nothing either. -/
theorem dry_run_no_removals :
    ∀ (repoKnown : Bool) (prOracle : Int → Option String) (now staleDays : Int)
      (response : String) (wts : List WorktreeInfo) (removeOk : String → Bool),
      cleanRemovalAttempts repoKnown prOracle now staleDays true response wts = [] ∧
      cleanEvents removeOk repoKnown prOracle now staleDays true response wts = [] ∧
      cleanRun removeOk (.ok wts) repoKnown prOracle now staleDays true response =
        .ok [] := by
  intro rk po now sd resp wts removeOk
  exact ⟨rfl, rfl, rfl⟩

lemma resolveStatus_path (rk : Bool) (po : Int → Option String) (wt : WorktreeInfo) :
    (resolveStatus rk po wt).path = wt.path := by
  unfold resolveStatus
  cases statusOf rk po wt <;> rfl

/-- C8: removal failures are isolated — the sequence of removal attempts
does not depend on the per-path removal outcomes, every Remove-classified
record gets its attempt, and only the enumeration step's failure aborts
the run (an `ok` enumeration always yields an `ok` run). -/
theorem removal_failures_isolated :
    (∀ (rk : Bool) (po : Int → Option String) (now sd : Int) (dry : Bool)
       (resp : String) (wts : List WorktreeInfo) (ok1 ok2 : String → Bool),
       (cleanEvents ok1 rk po now sd dry resp wts).map Prod.fst =
         (cleanEvents ok2 rk po now sd dry resp wts).map Prod.fst) ∧
    (∀ (rk : Bool) (po : Int → Option String) (now sd : Int) (resp : String)
       (wts : List WorktreeInfo) (removeOk : String → Bool) (wt : WorktreeInfo),
       wt ∈ wts → classify rk po now sd wt = .remove →
       wt.path ∈ (cleanEvents removeOk rk po now sd false resp wts).map Prod.fst) ∧
    (∀ (removeOk : String → Bool) (rk : Bool) (po : Int → Option String)
       (now sd : Int) (dry : Bool) (resp e : String),
       cleanRun removeOk (.error e) rk po now sd dry resp =
         .error ("failed to get worktree info: " ++ e)) ∧
    (∀ (removeOk : String → Bool) (rk : Bool) (po : Int → Option String)
       (now sd : Int) (dry : Bool) (resp : String) (wts : List WorktreeInfo),
       ∃ evs, cleanRun removeOk (.ok wts) rk po now sd dry resp = .ok evs) := by
  refine ⟨?_, ?_, ?_, ?_⟩
  · intro rk po now sd dry resp wts ok1 ok2
    unfold cleanEvents
    rw [List.map_map, List.map_map]
    have h1 : (Prod.fst ∘ fun p => (p, ok1 p)) = id := rfl
    have h2 : (Prod.fst ∘ fun p => (p, ok2 p)) = id := rfl
    rw [h1, h2]
  · intro rk po now sd resp wts removeOk wt hmem hcl
    unfold cleanEvents
    rw [List.map_map]
    have hid : (Prod.fst ∘ fun p => (p, removeOk p)) = id := rfl
    rw [hid, List.map_id]
    unfold cleanRemovalAttempts
    simp only [Bool.false_eq_true, if_false]
    apply List.mem_append_left
    unfold cleanPartition
    simp only
    rw [← resolveStatus_path rk po wt]
    have hf : wt ∈ List.filter
        (fun wt => decide (classify rk po now sd wt = Decision.remove)) wts := by
      rw [List.mem_filter]
      exact ⟨hmem, by rw [hcl]; rfl⟩
    exact List.mem_map_of_mem _ (List.mem_map_of_mem _ hf)
  · intro removeOk rk po now sd dry resp e
    rfl
  · intro removeOk rk po now sd dry resp wts
    exact ⟨_, rfl⟩

theorem removal_failures_isolated_witness :
    "/r/pr-5" ∈ (cleanEvents (fun _ => false) true (fun _ => some "closed") 0 30 false ""
      [⟨"/r/pr-5", "pr-5", 5, 0, ""⟩]).map Prod.fst :=
  removal_failures_isolated.2.1 true (fun _ => some "closed") 0 30 ""
    [⟨"/r/pr-5", "pr-5", 5, 0, ""⟩] (fun _ => false) ⟨"/r/pr-5", "pr-5", 5, 0, ""⟩
    (by decide) (by decide)

lemma staleLookup_nil (t : String) : staleLookup [] t = none := by
  unfold staleLookup
  cases goAtoi t with
  | none => rfl
  | some idx =>
    simp only [List.length_nil, Nat.cast_zero]
    rw [if_neg (by omega)]

lemma selectStale_nil (resp : String) : selectStale [] resp = [] := by
  unfold selectStale
  by_cases h1 : goTrimSpace resp = ""
  · rw [if_pos h1]
  · rw [if_neg h1]
    by_cases h2 : goTrimSpace resp = "all"
    · rw [if_pos h2]
    · rw [if_neg h2]
      rw [List.filterMap_eq_nil_iff]
      intro t ht
      exact staleLookup_nil t

/-- C4 counterexample: the first (primary) worktree of an enumeration is
not always excluded — with branch `develop` and a path not containing
`/.git`, the skip test fails, the record is classified Stale, and the
run even removes it on interactive input `all`. -/
theorem main_exclusion_cex :
    isMainWorktree ⟨"/home/user/repo", "develop", 0, 0, ""⟩ = false ∧
    classify false (fun _ => none) 3456000 30 ⟨"/home/user/repo", "develop", 0, 0, ""⟩ =
      .stale ∧
    cleanRemovalAttempts false (fun _ => none) 3456000 30 false "all"
      [⟨"/home/user/repo", "develop", 0, 0, ""⟩] = ["/home/user/repo"] := by
  refine ⟨by decide, by decide, by decide⟩

/-- C4 amended: a worktree record is excluded from policy evaluation —
never classified Remove or Stale, and contributing no removal — exactly
when its path contains `/.git` or its branch is `main` or `master`; the
primary worktree is excluded only when it satisfies that match. -/
theorem main_exclusion_amended :
    ∀ (rk : Bool) (po : Int → Option String) (now sd : Int) (wt : WorktreeInfo),
      (goContains wt.path "/.git" = true ∨ wt.branch = "main" ∨ wt.branch = "master") →
      classify rk po now sd wt = .excluded ∧
      classify rk po now sd wt ≠ .remove ∧ classify rk po now sd wt ≠ .stale ∧
      (∀ (dry : Bool) (resp : String),
        cleanRemovalAttempts rk po now sd dry resp [wt] = []) := by
  intro rk po now sd wt h
  have hmain : isMainWorktree wt = true := by
    unfold isMainWorktree
    rcases h with h | h | h
    · rw [h]
      simp
    · rw [h]
      simp
    · rw [h]
      simp
  have hex : classify rk po now sd wt = .excluded := by
    unfold classify
    rw [hmain]
    simp
  refine ⟨hex, by rw [hex]; decide, by rw [hex]; decide, ?_⟩
  intro dry resp
  unfold cleanRemovalAttempts cleanPartition
  cases dry with
  | true => rfl
  | false =>
    have hfil : List.filter
        (fun w => decide (classify rk po now sd w = Decision.remove)) [wt] = [] := by
      simp [hex]
    have hfil2 : List.filter
        (fun w => decide (classify rk po now sd w = Decision.stale)) [wt] = [] := by
      simp [hex]
    simp only [hfil, hfil2, List.map_nil, selectStale_nil]
    rfl

theorem main_exclusion_amended_witness :
    classify true (fun _ => some "merged") 0 30 ⟨"/home/user/repo", "main", 9, 0, ""⟩ =
      .excluded :=
  (main_exclusion_amended true (fun _ => some "merged") 0 30
    ⟨"/home/user/repo", "main", 9, 0, ""⟩ (Or.inr (Or.inl rfl))).1

lemma enrichOne_unset (cd : String → Option Int) (wt : WorktreeInfo)
    (h : wt.branch = "" ∨ cd wt.path = none) : enrichOne cd wt = wt := by
  unfold enrichOne
  rcases h with h | h
  · rw [h]
    simp
  · by_cases hb : wt.branch ≠ ""
    · rw [if_pos hb, h]
    · rw [if_neg hb]

lemma days_zero_time (now : Int) (h : 0 ≤ now) :
    daysSinceCommit now goZeroTimeSec = 106751 := by
  unfold daysSinceCommit timeSinceSec goZeroTimeSec goMaxDurationSec
  have h1 : min (now - -62135596800) 9223372036 = 9223372036 :=
    min_eq_right (by omega)
  rw [h1]
  have h2 : max (-(9223372036 : Int)) 9223372036 = 9223372036 :=
    max_eq_right (by omega)
  rw [h2]
  decide

/-- C9: a record whose last-commit field stayed at the zero timestamp
(empty branch or failed commit-date lookup) keeps that value through
enrichment, its computed age is the saturated 106751 days (for any
non-negative clock), and whenever the threshold is below the computed age
the non-excluded record that is not classified Remove (no usable status,
or a status other than merged/closed, such as `open`) is classified
Stale. -/
theorem zero_timestamp_stale :
    ∀ (commitDate : String → Option Int) (wt : WorktreeInfo) (rk : Bool)
      (po : Int → Option String) (now staleDays : Int),
      wt.lastCommit = goZeroTimeSec →
      (wt.branch = "" ∨ commitDate wt.path = none) →
      (enrichOne commitDate wt).lastCommit = goZeroTimeSec ∧
      (0 ≤ now → daysSinceCommit now (enrichOne commitDate wt).lastCommit = 106751) ∧
      (isMainWorktree wt = false →
        (statusOf rk po wt = none ∨
         ∃ s, statusOf rk po wt = some s ∧ s ≠ "merged" ∧ s ≠ "closed") →
        staleDays < daysSinceCommit now wt.lastCommit →
        classify rk po now staleDays (enrichOne commitDate wt) = .stale) := by
  intro cd wt rk po now sd hlast hunset
  rw [enrichOne_unset cd wt hunset]
  refine ⟨hlast, ?_, ?_⟩
  · intro hnow
    rw [hlast]
    exact days_zero_time now hnow
  · intro hmain hst hday
    rw [classify_not_main rk po now sd wt hmain]
    rcases hst with hnone | ⟨s, hsome, hm, hc⟩
    · rw [hnone, if_pos hday]
    · rw [hsome]
      have hbeq : (s == "merged" || s == "closed") = false := by
        simp [hm, hc]
      simp only [hbeq, Bool.false_eq_true, if_false]
      rw [if_pos hday]

theorem zero_timestamp_stale_witness :
    classify true (fun _ => some "open") 0 30
      (enrichOne (fun _ => none) ⟨"/w/pr-7", "", 7, goZeroTimeSec, ""⟩) = .stale :=
  (zero_timestamp_stale (fun _ => none) ⟨"/w/pr-7", "", 7, goZeroTimeSec, ""⟩ true
    (fun _ => some "open") 0 30 rfl (Or.inl rfl)).2.2 (by decide)
    (Or.inr ⟨"open", rfl, by decide, by decide⟩) (by decide)

lemma dropWhile_eq_self_of_head (p : Char → Bool) (l : List Char)
    (h : ∀ c, l.head? = some c → p c = false) : l.dropWhile p = l := by
  cases l with
  | nil => rfl
  | cons x xs =>
    rw [List.dropWhile_cons, h x rfl]
    simp

lemma goTrimSpaceL_eq_self (l : List Char)
    (h1 : ∀ c, l.head? = some c → isGoSpace c = false)
    (h2 : ∀ c, l.getLast? = some c → isGoSpace c = false) :
    goTrimSpaceL l = l := by
  unfold goTrimSpaceL
  rw [dropWhile_eq_self_of_head _ _ h1]
  rw [dropWhile_eq_self_of_head _ _ (by rw [List.head?_reverse]; exact h2)]
  exact List.reverse_reverse l

lemma mem_of_head_some (l : List Char) (c : Char) (h : l.head? = some c) : c ∈ l := by
  cases l with
  | nil => simp at h
  | cons x xs =>
    rw [List.head?_cons, Option.some.injEq] at h
    rw [← h]
    simp

lemma mem_of_getLast_some (l : List Char) (c : Char) (h : l.getLast? = some c) :
    c ∈ l := by
  rw [← List.head?_reverse] at h
  exact List.mem_reverse.mp (mem_of_head_some _ _ h)

lemma joinTok_data_facts (toks : List String) (htoks : toks ≠ [])
    (h : ∀ t ∈ toks, t.data ≠ [] ∧ ∀ c ∈ t.data, isGoSpace c = false) :
    (joinTok toks).data ≠ [] ∧
    (∀ c, (joinTok toks).data.head? = some c → isGoSpace c = false) ∧
    (∀ c, (joinTok toks).data.getLast? = some c → isGoSpace c = false) := by
  induction toks with
  | nil => exact absurd rfl htoks
  | cons t ts ih =>
    cases ts with
    | nil =>
      have ht := h t (by simp)
      exact ⟨ht.1, fun c hc => ht.2 c (mem_of_head_some _ _ hc),
             fun c hc => ht.2 c (mem_of_getLast_some _ _ hc)⟩
    | cons u us =>
      have ht := h t (by simp)
      have hrest := ih (by simp) (fun x hx => h x (by simp [hx]))
      have hdata : (joinTok (t :: u :: us)).data =
          t.data ++ (' ' :: (joinTok (u :: us)).data) := by
        show (t ++ " " ++ joinTok (u :: us)).data = _
        rw [String.data_append, String.data_append]
        simp
      refine ⟨?_, ?_, ?_⟩
      · rw [hdata]
        intro hcon
        exact ht.1 (List.append_eq_nil.mp hcon).1
      · intro c hc
        rw [hdata] at hc
        cases hd : t.data with
        | nil => exact absurd hd ht.1
        | cons x xs =>
          rw [hd, List.cons_append, List.head?_cons, Option.some.injEq] at hc
          have hcm : c ∈ t.data := by
            rw [hd, ← hc]
            simp
          exact ht.2 c hcm
      · intro c hc
        rw [hdata, List.getLast?_append] at hc
        have hlast : (' ' :: (joinTok (u :: us)).data).getLast? =
            (joinTok (u :: us)).data.getLast? := by
          cases hj : (joinTok (u :: us)).data with
          | nil => exact absurd hj hrest.1
          | cons y ys => simp
        rw [hlast] at hc
        cases hlo : (joinTok (u :: us)).data.getLast? with
        | none =>
          exfalso
          cases hj : (joinTok (u :: us)).data with
          | nil => exact hrest.1 hj
          | cons y ys =>
            rw [hj] at hlo
            simp at hlo
        | some d =>
          rw [hlo, show (some d).or t.data.getLast? = some d from rfl] at hc
          exact hrest.2.2 c (by rw [hlo, hc])

lemma fieldsAux_append_word (w : List Char) (rest acc : List Char)
    (hw : ∀ c ∈ w, isGoSpace c = false) :
    fieldsAux (w ++ rest) acc = fieldsAux rest (w.reverse ++ acc) := by
  induction w generalizing acc with
  | nil => simp
  | cons c cs ih =>
    rw [List.cons_append]
    show (if isGoSpace c = true then _ else fieldsAux (cs ++ rest) (c :: acc)) = _
    rw [if_neg (by rw [hw c (by simp)]; simp)]
    rw [ih (c :: acc) (fun x hx => hw x (by simp [hx]))]
    rw [List.reverse_cons, List.append_assoc]
    rfl

lemma goFields_joinTok (toks : List String) (htoks : toks ≠ [])
    (h : ∀ t ∈ toks, t.data ≠ [] ∧ ∀ c ∈ t.data, isGoSpace c = false) :
    goFields (joinTok toks) = toks := by
  induction toks with
  | nil => exact absurd rfl htoks
  | cons t ts ih =>
    have ht := h t (by simp)
    cases ts with
    | nil =>
      show fieldsAux t.data [] = [t]
      have hstep := fieldsAux_append_word t.data [] [] ht.2
      simp only [List.append_nil] at hstep
      rw [hstep, fieldsAux]
      rw [if_neg (by simp [ht.1])]
      rw [List.reverse_reverse]
    | cons u us =>
      have hdata : (joinTok (t :: u :: us)).data =
          t.data ++ (' ' :: (joinTok (u :: us)).data) := by
        show (t ++ " " ++ joinTok (u :: us)).data = _
        rw [String.data_append, String.data_append]
        simp
      show fieldsAux (joinTok (t :: u :: us)).data [] = t :: u :: us
      rw [hdata]
      have hstep := fieldsAux_append_word t.data (' ' :: (joinTok (u :: us)).data) [] ht.2
      simp only [List.append_nil] at hstep
      rw [hstep, fieldsAux]
      rw [if_pos (by decide), if_neg (by simp [ht.1])]
      have hrec : fieldsAux (joinTok (u :: us)).data [] = u :: us :=
        ih (by simp) (fun x hx => h x (by simp [hx]))
      rw [hrec, List.reverse_reverse]

lemma staleLookup_mem (stale : List WorktreeInfo) (t : String) (wt : WorktreeInfo)
    (h : staleLookup stale t = some wt) : wt ∈ stale := by
  unfold staleLookup at h
  split at h
  · split at h
    · exact List.get?_mem h
    · simp at h
  · simp at h

/-- C6: for the interactive stale list, `all` selects every listed
record, empty input selects nothing, only listed records are ever
selected, a space-separated token list selects exactly the records at
the valid in-range indices (each token through `strconv.Atoi` and the
1-based bounds test), and non-numeric or out-of-range tokens select
nothing and raise no error. -/
theorem stale_selection_spec :
    (∀ stale : List WorktreeInfo, selectStale stale "all" = stale) ∧
    (∀ stale : List WorktreeInfo, selectStale stale "" = []) ∧
    (∀ (stale : List WorktreeInfo) (raw : String) (wt : WorktreeInfo),
       wt ∈ selectStale stale raw → wt ∈ stale) ∧
    (∀ (stale : List WorktreeInfo) (toks : List String), toks ≠ [] →
       (∀ t ∈ toks, t.data ≠ [] ∧ ∀ c ∈ t.data, isGoSpace c = false) →
       joinTok toks ≠ "all" →
       selectStale stale (joinTok toks) = toks.filterMap (staleLookup stale)) ∧
    (∀ (stale : List WorktreeInfo) (t : String) (i : Int),
       goAtoi t = some i → i ≤ 0 ∨ (stale.length : Int) < i →
       staleLookup stale t = none) ∧
    (∀ (stale : List WorktreeInfo) (t : String),
       goAtoi t = none → staleLookup stale t = none) := by
  refine ⟨?_, ?_, ?_, ?_, ?_, ?_⟩
  · intro stale
    unfold selectStale
    rw [show goTrimSpace "all" = "all" from rfl]
    rw [if_neg (by decide), if_pos rfl]
  · intro stale
    rfl
  · intro stale raw wt hmem
    unfold selectStale at hmem
    by_cases h1 : goTrimSpace raw = ""
    · rw [if_pos h1] at hmem
      simp at hmem
    · rw [if_neg h1] at hmem
      by_cases h2 : goTrimSpace raw = "all"
      · rw [if_pos h2] at hmem
        exact hmem
      · rw [if_neg h2] at hmem
        rw [List.mem_filterMap] at hmem
        obtain ⟨t, _, hlook⟩ := hmem
        exact staleLookup_mem stale t wt hlook
  · intro stale toks htoks hwf hall
    have hfacts := joinTok_data_facts toks htoks hwf
    have htrim : goTrimSpace (joinTok toks) = joinTok toks := by
      show (⟨goTrimSpaceL (joinTok toks).data⟩ : String) = joinTok toks
      rw [goTrimSpaceL_eq_self _ hfacts.2.1 hfacts.2.2]
    have hne : joinTok toks ≠ "" := by
      intro hcon
      apply hfacts.1
      rw [hcon]
    unfold selectStale
    rw [htrim, if_neg hne, if_neg hall, goFields_joinTok toks htoks hwf]
  · intro stale t i hat hout
    unfold staleLookup
    rw [hat]
    show (if 0 < i ∧ i ≤ (stale.length : Int) then stale.get? (i - 1).toNat else none) =
      none
    rw [if_neg (by
      intro hcon
      rcases hout with h | h
      · omega
      · omega)]
  · intro stale t hat
    unfold staleLookup
    rw [hat]

theorem stale_selection_spec_witness :
    selectStale
        [⟨"/a", "a", 0, 0, ""⟩, ⟨"/b", "b", 0, 0, ""⟩, ⟨"/c", "c", 0, 0, ""⟩]
        (joinTok ["2", "99", "x"]) = [⟨"/b", "b", 0, 0, ""⟩] ∧
    selectStale [⟨"/a", "a", 0, 0, ""⟩] "all" = [⟨"/a", "a", 0, 0, ""⟩] := by
  constructor
  · have h := stale_selection_spec.2.2.2.1
      [⟨"/a", "a", 0, 0, ""⟩, ⟨"/b", "b", 0, 0, ""⟩, ⟨"/c", "c", 0, 0, ""⟩]
      ["2", "99", "x"] (by decide) (by decide) (by decide)
    rw [h]
    decide
  · exact stale_selection_spec.1 [⟨"/a", "a", 0, 0, ""⟩]

lemma parseWTGo_worktree_line (p : String) (rest : List String) (current : WorktreeInfo) :
    parseWTGo (("worktree " ++ p) :: rest) current =
      (if current.path ≠ "" then [finalizeWT current] else []) ++
        parseWTGo rest { emptyWT with path := p } := by
  conv_lhs => rw [parseWTGo]
  rw [goHasPre_self_append, goDropStr_worktree]
  simp

lemma parseWTGo_branch_line (br : String) (rest : List String) (current : WorktreeInfo) :
    parseWTGo (("branch refs/heads/" ++ br) :: rest) current =
      parseWTGo rest
        { current with
          branch := br
          prNumber :=
            if extractPRNumber br = 0 then extractPRNumber (filepathBase current.path)
            else extractPRNumber br } := by
  conv_lhs => rw [parseWTGo]
  rw [goHasPre_worktree_branchline, goHasPre_self_append, goDropStr_branch]
  simp

lemma parseWTGo_blank_line (rest : List String) (current : WorktreeInfo)
    (hp : current.path ≠ "") :
    parseWTGo ("" :: rest) current = finalizeWT current :: parseWTGo rest emptyWT := by
  conv_lhs => rw [parseWTGo]
  rw [show goHasPre "worktree " "" = false from rfl,
      show goHasPre "branch refs/heads/" "" = false from rfl]
  simp [hp]

lemma finalizeWT_mk (p br : String) (n : Int) :
    finalizeWT ⟨p, br, n, goZeroTimeSec, ""⟩ =
      ⟨p, br, if n = 0 then extractPRNumber (filepathBase p) else n,
       goZeroTimeSec, ""⟩ := by
  unfold finalizeWT
  rw [show (⟨p, br, n, goZeroTimeSec, ""⟩ : WorktreeInfo).prNumber = n from rfl]
  by_cases h : n = 0
  · rw [if_pos h, if_pos h]
  · rw [if_neg h, if_neg h]

lemma prnum_idem (a b : Int) :
    (if (if a = 0 then b else a) = 0 then b else (if a = 0 then b else a)) =
      (if a = 0 then b else a) := by
  by_cases h : a = 0
  · simp only [h, if_true]
    by_cases hb : b = 0
    · simp [hb]
    · simp [hb]
  · simp [h]

lemma parse_block (p : String) (obr : Option String) (rest : List String) (hp : p ≠ "") :
    parseWTGo (blockLines (p, obr) ++ "" :: rest) emptyWT =
      blockRecord (p, obr) :: parseWTGo rest emptyWT := by
  cases obr with
  | none =>
    show parseWTGo (("worktree " ++ p) :: "" :: rest) emptyWT = _
    rw [parseWTGo_worktree_line]
    rw [if_neg (by simp [emptyWT])]
    rw [parseWTGo_blank_line rest _ (by simp [emptyWT]; exact hp)]
    simp only [List.nil_append]
    congr 1
  | some br =>
    show parseWTGo (("worktree " ++ p) :: ("branch refs/heads/" ++ br) :: "" :: rest)
        emptyWT = _
    rw [parseWTGo_worktree_line]
    rw [if_neg (by simp [emptyWT])]
    rw [parseWTGo_branch_line]
    rw [parseWTGo_blank_line rest _ (by simp [emptyWT]; exact hp)]
    simp only [List.nil_append]
    congr 1
    show finalizeWT
        ⟨p, br,
         (if extractPRNumber br = 0 then extractPRNumber (filepathBase p)
          else extractPRNumber br), goZeroTimeSec, ""⟩ = blockRecord (p, some br)
    rw [finalizeWT_mk]
    show (⟨p, br, _, goZeroTimeSec, ""⟩ : WorktreeInfo) = ⟨p, br, _, goZeroTimeSec, ""⟩
    rw [WorktreeInfo.mk.injEq]
    refine ⟨rfl, rfl, ?_, rfl, rfl⟩
    exact prnum_idem (extractPRNumber br) (extractPRNumber (filepathBase p))

/-- C7: the porcelain parser produces exactly one record per worktree
block, in enumeration order, with the block's path and (optional) branch;
in particular, an input of two blocks separated by a blank line yields
exactly the two records with correct path and branch fields. -/
theorem enumerator_blocks_spec :
    (∀ blocks : List Block, (∀ b ∈ blocks, b.1 ≠ "") →
       parseWTGo (porcelainLines blocks) emptyWT = blocks.map blockRecord) ∧
    parseWorktreePorcelain
        "worktree /repos/feature-a\nbranch refs/heads/feature-a\n\nworktree /repos/pr-123\nbranch refs/heads/pr-123\n" =
      [⟨"/repos/feature-a", "feature-a", 0, goZeroTimeSec, ""⟩,
       ⟨"/repos/pr-123", "pr-123", 123, goZeroTimeSec, ""⟩] := by
  constructor
  · intro blocks hwf
    induction blocks with
    | nil => rfl
    | cons b bs ih =>
      obtain ⟨p, obr⟩ := b
      show parseWTGo (blockLines (p, obr) ++ "" :: porcelainLines bs) emptyWT = _
      rw [parse_block p obr _ (hwf (p, obr) (by simp))]
      rw [ih (fun x hx => hwf x (by simp [hx]))]
      rfl
  · decide

theorem enumerator_blocks_spec_witness :
    parseWTGo (porcelainLines [("/repos/a", some "feat"), ("/repos/b", none)]) emptyWT =
      [blockRecord ("/repos/a", some "feat"), blockRecord ("/repos/b", none)] := by
  have h := enumerator_blocks_spec.1 [("/repos/a", some "feat"), ("/repos/b", none)]
    (by decide)
  rw [h]
  rfl

lemma findWTPath_worktree_step (branch p : String) (rest : List String) (cp : String) :
    findWTPath branch (("worktree " ++ p) :: rest) cp =
      if (decide (p ≠ "") && (filepathBase p == branch)) = true then some p
      else findWTPath branch rest p := by
  conv_lhs => rw [findWTPath]
  rw [goHasPre_self_append, goDropStr_worktree, goHasPre_branch_worktreeline]
  simp

lemma findWTPath_branch_step (branch br : String) (rest : List String) (cp : String) :
    findWTPath branch (("branch refs/heads/" ++ br) :: rest) cp =
      if (br == branch) = true then some cp
      else if (decide (cp ≠ "") && (filepathBase cp == branch)) = true then some cp
      else findWTPath branch rest cp := by
  conv_lhs => rw [findWTPath]
  rw [goHasPre_worktree_branchline, goHasPre_self_append, goDropStr_branch]
  simp

lemma findWTPath_blank_step (branch : String) (rest : List String) (cp : String) :
    findWTPath branch ("" :: rest) cp =
      if (decide (cp ≠ "") && (filepathBase cp == branch)) = true then some cp
      else findWTPath branch rest cp := by
  conv_lhs => rw [findWTPath]
  rw [show goHasPre "worktree " "" = false from rfl,
      show goHasPre "branch refs/heads/" "" = false from rfl]
  simp

lemma findWT_block_cases (branch p : String) (obr : Option String) (rest : List String)
    (cp : String) :
    findWTPath branch (blockLines (p, obr) ++ rest) cp = findWTPath branch rest p ∨
    findWTPath branch (blockLines (p, obr) ++ rest) cp = some p := by
  cases obr with
  | none =>
    show findWTPath branch (("worktree " ++ p) :: rest) cp = findWTPath branch rest p ∨
      findWTPath branch (("worktree " ++ p) :: rest) cp = some p
    rw [findWTPath_worktree_step]
    by_cases h : (decide (p ≠ "") && (filepathBase p == branch)) = true
    · right
      rw [if_pos h]
    · left
      rw [if_neg h]
  | some br =>
    show findWTPath branch
        (("worktree " ++ p) :: ("branch refs/heads/" ++ br) :: rest) cp =
          findWTPath branch rest p ∨
      findWTPath branch
        (("worktree " ++ p) :: ("branch refs/heads/" ++ br) :: rest) cp = some p
    rw [findWTPath_worktree_step]
    by_cases h1 : (decide (p ≠ "") && (filepathBase p == branch)) = true
    · right
      rw [if_pos h1]
    · rw [if_neg h1, findWTPath_branch_step]
      by_cases h2 : (br == branch) = true
      · right
        rw [if_pos h2]
      · rw [if_neg h2]
        by_cases h3 : (decide (p ≠ "") && (filepathBase p == branch)) = true
        · right
          rw [if_pos h3]
        · left
          rw [if_neg h3]

lemma findWT_block_hit (branch p : String) (obr : Option String) (rest : List String)
    (cp : String) (hp : p ≠ "")
    (hhit : obr = some branch ∨ filepathBase p = branch) :
    findWTPath branch (blockLines (p, obr) ++ rest) cp = some p := by
  by_cases hbase : filepathBase p = branch
  · have hcond : (decide (p ≠ "") && (filepathBase p == branch)) = true := by
      rw [decide_eq_true hp, hbase]
      simp
    cases obr with
    | none =>
      show findWTPath branch (("worktree " ++ p) :: rest) cp = some p
      rw [findWTPath_worktree_step, if_pos hcond]
    | some br =>
      show findWTPath branch
          (("worktree " ++ p) :: ("branch refs/heads/" ++ br) :: rest) cp = some p
      rw [findWTPath_worktree_step, if_pos hcond]
  · have hbr : obr = some branch := by
      rcases hhit with h | h
      · exact h
      · exact absurd h hbase
    subst hbr
    show findWTPath branch
        (("worktree " ++ p) :: ("branch refs/heads/" ++ branch) :: rest) cp = some p
    rw [findWTPath_worktree_step]
    rw [if_neg (by
      rw [decide_eq_true hp]
      simp [hbase])]
    rw [findWTPath_branch_step, if_pos (by simp)]

lemma findWTPath_exists (branch : String) :
    ∀ (blocks : List Block) (cp : String),
      (∀ b ∈ blocks, b.1 ≠ "") →
      ((∃ b ∈ blocks, b.2 = some branch) ∨ (∃ b ∈ blocks, filepathBase b.1 = branch)) →
      ∃ q, findWTPath branch (wtLines blocks) cp = some q ∧ q ≠ "" := by
  intro blocks
  induction blocks with
  | nil =>
    intro cp _ hhit
    exfalso
    rcases hhit with ⟨b, hb, _⟩ | ⟨b, hb, _⟩ <;> simp at hb
  | cons b bs ih =>
    intro cp hwf hhit
    obtain ⟨p, obr⟩ := b
    have hp : p ≠ "" := hwf (p, obr) (by simp)
    by_cases hb : obr = some branch ∨ filepathBase p = branch
    · cases bs with
      | nil =>
        refine ⟨p, ?_, hp⟩
        show findWTPath branch (blockLines (p, obr)) cp = some p
        rw [show blockLines (p, obr) = blockLines (p, obr) ++ [] from by simp]
        exact findWT_block_hit branch p obr [] cp hp hb
      | cons b2 bs2 =>
        refine ⟨p, ?_, hp⟩
        show findWTPath branch (blockLines (p, obr) ++ "" :: wtLines (b2 :: bs2)) cp =
          some p
        exact findWT_block_hit branch p obr _ cp hp hb
    · have hhit2 : (∃ x ∈ bs, x.2 = some branch) ∨ ∃ x ∈ bs, filepathBase x.1 = branch := by
        push_neg at hb
        rcases hhit with ⟨x, hx, hx2⟩ | ⟨x, hx, hx2⟩
        · rcases List.mem_cons.mp hx with rfl | hxs
          · exact absurd hx2 hb.1
          · exact Or.inl ⟨x, hxs, hx2⟩
        · rcases List.mem_cons.mp hx with rfl | hxs
          · exact absurd hx2 hb.2
          · exact Or.inr ⟨x, hxs, hx2⟩
      cases bs with
      | nil =>
        exfalso
        rcases hhit2 with ⟨x, hx, _⟩ | ⟨x, hx, _⟩ <;> simp at hx
      | cons b2 bs2 =>
        have hwf2 : ∀ x ∈ b2 :: bs2, x.1 ≠ "" := fun x hx => hwf x (by simp [hx])
        show ∃ q, findWTPath branch (blockLines (p, obr) ++ "" :: wtLines (b2 :: bs2)) cp =
          some q ∧ q ≠ ""
        rcases findWT_block_cases branch p obr ("" :: wtLines (b2 :: bs2)) cp with
          heq | heq
        · rw [heq, findWTPath_blank_step]
          by_cases hguard : (decide (p ≠ "") && (filepathBase p == branch)) = true
          · exact ⟨p, by rw [if_pos hguard], hp⟩
          · rw [if_neg hguard]
            exact ih p hwf2 hhit2
        · exact ⟨p, heq, hp⟩

/-- C10: `AddWithOptions` returns an error without reaching the
`git worktree add` invocation whenever the enumerated worktree list has a
block whose branch equals the requested branch or whose path's final
segment equals the branch name (regardless of that block's own branch),
and likewise whenever the computed target directory already exists. -/
theorem add_precheck_spec :
    (∀ (env : AddEnv) (branch path : String) (ab : Bool) (out : String)
       (blocks : List Block),
       env.listOutput = .ok out →
       goSplitLines (goTrimSpace out) = wtLines blocks →
       (∀ b ∈ blocks, b.1 ≠ "") →
       ((∃ b ∈ blocks, b.2 = some branch) ∨
        (∃ b ∈ blocks, filepathBase b.1 = branch)) →
       (∃ m, addWithOptions env branch path ab = .err m) ∧
       (∀ bp, addWithOptions env branch path ab ≠ .invoke bp)) ∧
    (∀ (env : AddEnv) (branch path : String) (ab : Bool) (bp : String),
       computeBranchPath env branch path ab = .ok bp →
       env.dirExists bp = true →
       (∃ m, addWithOptions env branch path ab = .err m) ∧
       (∀ q, addWithOptions env branch path ab ≠ .invoke q)) := by
  constructor
  · intro env branch path ab out blocks hout hsplit hwf hhit
    obtain ⟨q, hq, hqne⟩ := by
      rw [← hsplit] at *
      exact findWTPath_exists branch blocks "" hwf hhit
    have hq2 : findWTPath branch (goSplitLines (goTrimSpace out)) "" = some q := by
      rw [hsplit]
      exact hq
    have hwt : getWorktreePathForBranchM env.listOutput branch = .ok q := by
      unfold getWorktreePathForBranchM
      rw [hout]
      show (match findWTPath branch (goSplitLines (goTrimSpace out)) "" with
            | some p => Except.ok p
            | none => Except.error ("worktree for branch " ++ branch ++ " not found")) =
        Except.ok q
      rw [hq2]
    have hres : ∃ m, addWithOptions env branch path ab = .err m := by
      unfold addWithOptions
      cases hbp : computeBranchPath env branch path ab with
      | error m => exact ⟨m, rfl⟩
      | ok bp =>
        rw [hwt]
        refine ⟨"worktree for branch '" ++ branch ++ "' already exists at: " ++ q, ?_⟩
        show (match (if q ≠ "" then
                some ("worktree for branch '" ++ branch ++ "' already exists at: " ++ q)
              else none) with
              | some m => AddOutcome.err m
              | none =>
                if env.dirExists bp = true then
                  AddOutcome.err ("directory already exists at: " ++ bp)
                else AddOutcome.invoke bp) = _
        rw [if_pos hqne]
    obtain ⟨m, hm⟩ := hres
    exact ⟨⟨m, hm⟩, fun bp hcon => by rw [hm] at hcon; exact AddOutcome.noConfusion hcon⟩
  · intro env branch path ab bp hbp hex
    have hres : ∃ m, addWithOptions env branch path ab = .err m := by
      unfold addWithOptions
      rw [hbp]
      cases hwt : getWorktreePathForBranchM env.listOutput branch with
      | ok existing =>
        dsimp only
        by_cases he : existing ≠ ""
        · rw [if_pos he]
          exact ⟨_, rfl⟩
        · rw [if_neg he]
          dsimp only
          rw [hex]
          exact ⟨_, rfl⟩
      | error e =>
        dsimp only
        rw [hex]
        exact ⟨_, rfl⟩
    obtain ⟨m, hm⟩ := hres
    exact ⟨⟨m, hm⟩, fun q hcon => by rw [hm] at hcon; exact AddOutcome.noConfusion hcon⟩

theorem add_precheck_spec_witness :
    (∃ m, addWithOptions
        ⟨.ok "worktree /repos/feat\nbranch refs/heads/feat\n", fun _ => false,
         .error "no git"⟩ "feat" "" false = .err m) ∧
    (∃ m, addWithOptions
        ⟨.error "boom", fun _ => true, .error "no git"⟩ "feat" "/tmp/wt" false =
      .err m) := by
  constructor
  · exact (add_precheck_spec.1
      ⟨.ok "worktree /repos/feat\nbranch refs/heads/feat\n", fun _ => false,
       .error "no git"⟩ "feat" "" false
      "worktree /repos/feat\nbranch refs/heads/feat\n" [("/repos/feat", some "feat")]
      rfl (by decide) (by decide) (Or.inl ⟨("/repos/feat", some "feat"), by decide, rfl⟩)).1
  · exact (add_precheck_spec.2
      ⟨.error "boom", fun _ => true, .error "no git"⟩ "feat" "/tmp/wt" false "/tmp/wt"
      rfl rfl).1
